import Mathlib

/-!
Verification of the card-identity subsystem and the flashcard review
controller of the Werkstoffkunde study-card application.

The definitions below are a shallow embedding of:
* `server/idgen.ts` — `getTopicAbbreviation`, `getTypeInitial`, `generateCardId`
  (the server-side id generator; the frontend copy in
  `src/utils/idGenerator.ts` is embedded separately as `frontendGenerateCardId`);
* the bulk-import handler `POST /api/cards/import` in `server/index.ts`;
* the review deck controller in `FlashcardView` (phase / deck / currentIndex /
  isFlipped / knownCount / totalSeen state and the `startLearning`,
  `handleFlip`, `handleKnown`, `handleAgain` callbacks together with the
  keyboard/button gating).

Strings are modelled as sequences of Unicode scalar values (Lean `String`);
this coincides with JavaScript's UTF-16 view on all inputs without surrogate
pairs, which covers every string the application manipulates.
-/

/-! ## JavaScript string/number primitives used by the source -/

/-- Decimal digit test, the characters accepted by `parseInt(_, 10)`:
`'0'`..`'9'` (code points 48–57). -/
def jsIsDigit (c : Char) : Bool := 48 ≤ c.toNat && c.toNat ≤ 57

/-- Whitespace skipped by JavaScript `parseInt` before parsing: space and the
ASCII control whitespace characters.  (JavaScript additionally skips exotic
Unicode space separators such as NBSP; ids in this application are ASCII, so
the restriction is immaterial and only makes the "ignored id" predicate used
below slightly larger, never smaller, than the JS one on ASCII data.) -/
def jsIsSpace (c : Char) : Bool :=
  c.toNat = 32 || c.toNat = 9 || c.toNat = 10 || c.toNat = 11 ||
  c.toNat = 12 || c.toNat = 13

/-- Numeric value of a run of decimal digit characters, most significant
first (the value `parseInt` produces from the digit run it accepts). -/
def digitsVal (cs : List Char) : Nat :=
  cs.foldl (fun a c => 10 * a + (c.toNat - 48)) 0

/-- The longest leading run of decimal digits, or `none` if there is none.
This is the digit-consuming core of `parseInt(_, 10)`: parsing stops at the
first non-digit and fails (NaN) only when no digit was read at all. -/
def parseDigits (cs : List Char) : Option Nat :=
  match cs.takeWhile jsIsDigit with
  | [] => none
  | ds => some (digitsVal ds)

/-- JavaScript `parseInt(s, 10)`: skip leading whitespace, accept one optional
sign, then read the longest run of decimal digits; `none` models `NaN`.
(For digit runs beyond 2^53 JavaScript loses precision to the double format;
the model is exact, which is only visible on astronomically long ids.) -/
def jsParseInt (s : String) : Option Int :=
  match s.data.dropWhile jsIsSpace with
  | [] => none
  | c :: cs =>
    if c = '-' then (parseDigits cs).map (fun n => -(n : Int))
    else if c = '+' then (parseDigits cs).map (fun n => (n : Int))
    else (parseDigits (c :: cs)).map (fun n => (n : Int))

/-- JavaScript `s.startsWith(pre)`. -/
def jsStartsWith (s pre : String) : Bool := pre.data.isPrefixOf s.data

/-- JavaScript `s.slice(k)` for a non-negative start index. -/
def jsSliceFrom (s : String) (k : Nat) : String := String.mk (s.data.drop k)

/-- JavaScript `s.padStart(target, c)`: left-pad with `c` up to `target`
characters, no-op when `s` is already long enough. -/
def jsPadStart (s : String) (target : Nat) (c : Char) : String :=
  String.mk (List.replicate (target - s.length) c ++ s.data)

/-- JavaScript `s.padEnd(target, c)` on character lists: right-pad with `c` up
to `target` characters. -/
def jsPadEndChars (l : List Char) (target : Nat) (c : Char) : List Char :=
  l ++ List.replicate (target - l.length) c

/-- Decimal rendering of the sequence number, JavaScript
`(max + 1).toString()`.  `Int.repr` produces the plain decimal digits for
every non-negative integer, exactly as `Number.prototype.toString` does for
every integral value below 10^21 (the only values reachable here). -/
def jsNumToString (i : Int) : String := Int.repr i

/-! ## Identifier generator (`server/idgen.ts`, lines 1–38) -/

/-- `UMLAUT_MAP` of `idgen.ts`: `ä→A, ö→O, ü→U, Ä→A, Ö→O, Ü→U, ß→S`; every
other character is left unchanged (`UMLAUT_MAP[char] ?? char`). -/
def umlautSub (c : Char) : Char :=
  if c = 'ä' then 'A' else if c = 'ö' then 'O' else if c = 'ü' then 'U'
  else if c = 'Ä' then 'A' else if c = 'Ö' then 'O' else if c = 'Ü' then 'U'
  else if c = 'ß' then 'S' else c

/-- The 52 characters matched by the character class `[a-zA-Z]` of the
regular expression `/[^a-zA-Z]/g` used in `getTopicAbbreviation`. -/
def azChars : List Char :=
  "abcdefghijklmnopqrstuvwxyzABCDEFGHIJKLMNOPQRSTUVWXYZ".data

/-- Membership in the regex class `[a-zA-Z]`. -/
def isAsciiLetter (c : Char) : Bool := azChars.contains c

/-- The character-list body of `getTopicAbbreviation`:
map `UMLAUT_MAP`, strip everything outside `[a-zA-Z]`, upper-case
(`Char.toUpper` is exact here because only ASCII letters survive the strip),
take the first 3 characters, right-pad with `'X'` to length 3. -/
def abbrevChars (l : List Char) : List Char :=
  jsPadEndChars ((((l.map umlautSub).filter isAsciiLetter).map Char.toUpper).take 3) 3 'X'

/-- `getTopicAbbreviation` of `idgen.ts` (identical in
`src/utils/idGenerator.ts`). -/
def getTopicAbbreviation (topic : String) : String :=
  String.mk (abbrevChars topic.data)

/-- `getTypeInitial` of `server/idgen.ts`: fixed map on the four card types
with fallback `type.charAt(0).toUpperCase()` (empty string when `type` is
empty, since `"".charAt(0)` is `""`).  `Char.toUpper` matches JavaScript's
`toUpperCase` on ASCII; the four mapped branches and every input exercised by
the theorems below are ASCII. -/
def getTypeInitial (ty : String) : String :=
  if ty = "Formel" then "F"
  else if ty = "Definition" then "D"
  else if ty = "Graph" then "G"
  else if ty = "Erklärung" then "E"
  else match ty.data with
    | [] => ""
    | c :: _ => String.mk [Char.toUpper c]

/-- The prefix `` `${abbr}-${initial}-` `` computed by `generateCardId`. -/
def mkIdPrefix (topic ty : String) : String :=
  getTopicAbbreviation topic ++ "-" ++ getTypeInitial ty ++ "-"

/-- One step of the `for (const id of existingIds)` loop of `generateCardId`:
`if (id.startsWith(prefix)) { const num = parseInt(id.slice(prefix.length), 10);
if (!isNaN(num) && num > max) max = num }`. -/
def seqStep (pfx : String) (m : Int) (id : String) : Int :=
  if jsStartsWith id pfx then
    match jsParseInt (jsSliceFrom id pfx.length) with
    | some n => if m < n then n else m
    | none => m
  else m

/-- `generateCardId` of `server/idgen.ts` (lines 24–38). -/
def generateCardId (topic ty : String) (existingIds : List String) : String :=
  let pfx := mkIdPrefix topic ty
  let maxN := existingIds.foldl (seqStep pfx) 0
  pfx ++ jsPadStart (jsNumToString (maxN + 1)) 3 '0'

/-- The parse attempt `generateCardId` makes for one existing id: the parsed
suffix when the id starts with the prefix and its suffix parses, else `none`. -/
def idSeqParse (pfx : String) (id : String) : Option Int :=
  if jsStartsWith id pfx then jsParseInt (jsSliceFrom id pfx.length) else none

/-- The "largest parsed sequence number, or 0" of the specification, phrased
as a maximum over the parsed suffix values of the matching ids (taking 0 as
the base of the maximum, as the code's `let max = 0` does). -/
def maxParsedSeq (pfx : String) (ids : List String) : Int :=
  (ids.filterMap (idSeqParse pfx)).foldl max 0

/-! ## Frontend copy of the generator (`src/utils/idGenerator.ts`) -/

/-- `TYPE_INITIAL_MAP` of `src/utils/idGenerator.ts`: the same four-entry map,
but exposed through a `getTypeInitial` that has NO fallback branch
(`return TYPE_INITIAL_MAP[type]`).  At runtime a type value outside the map
yields the JavaScript value `undefined`. -/
def frontendGetTypeInitial (ty : String) : Option String :=
  if ty = "Formel" then some "F"
  else if ty = "Definition" then some "D"
  else if ty = "Graph" then some "G"
  else if ty = "Erklärung" then some "E"
  else none

/-- `generateCardId` of `src/utils/idGenerator.ts` (lines 70–94).  The body is
the same scan as the server's; the only difference is the type initial: when
`frontendGetTypeInitial` misses, the template literal
`` `${abbreviation}-${typeInitial}-` `` stringifies `undefined` to the literal
text `"undefined"`. -/
def frontendGenerateCardId (topic ty : String) (existingIds : List String) : String :=
  let abbr := getTopicAbbreviation topic
  let initial := match frontendGetTypeInitial ty with
    | some s => s
    | none => "undefined"
  let pfx := abbr ++ "-" ++ initial ++ "-"
  let maxN := existingIds.foldl (seqStep pfx) 0
  pfx ++ jsPadStart (jsNumToString (maxN + 1)) 3 '0'

/-! ## Cards and bulk import (`server/index.ts`, lines 64–99) -/

/-- The card record as far as the import logic reads or writes it: the
fingerprint fields (`title`, `topic`, `type`) and the assigned `id`.  The
remaining optional fields (`content`, `latex`, `variables`, …) are carried
through `{ ...card, id }` untouched and are represented by `content` as a
stand-in for the pass-through payload. -/
structure Card where
  id : String
  topic : String
  type : String
  title : String
  content : String
deriving DecidableEq

/-- The fingerprint `` `${c.title}|||${c.topic}|||${c.type}` `` used for
duplicate detection. -/
def fingerprint (c : Card) : String :=
  c.title ++ "|||" ++ c.topic ++ "|||" ++ c.type

/-- Result of `POST /api/cards/import`:
`{ imported: imported.length, duplicates: duplicates.length, cards: imported }`. -/
structure ImportResult where
  imported : Nat
  duplicates : Nat
  cards : List Card
deriving DecidableEq

/-- The `for (const card of cards)` loop of the import handler, with the
accumulators `allIds`, `imported`, `duplicates` made explicit.  A card whose
fingerprint is in the existing-fingerprint set is pushed to `duplicates`
unchanged (`continue`, no id assigned); otherwise an id is generated against
`allIds`, the id is appended to `allIds`, and `{ ...card, id }` is pushed to
`imported`. -/
def importLoop (fps : List String) :
    List Card → List String → List Card → List Card → List Card × List Card
  | [], _, imported, duplicates => (imported, duplicates)
  | c :: rest, allIds, imported, duplicates =>
    if fps.contains (fingerprint c) then
      importLoop fps rest allIds imported (duplicates ++ [c])
    else
      let i := generateCardId c.topic c.type allIds
      importLoop fps rest (allIds ++ [i]) (imported ++ [{ c with id := i }]) duplicates

/-- The bulk-import handler body (`server/index.ts` lines 71–98):
`existingIds = db.getAllIds()`, `existingCards = db.getAllCards()`,
`existingFingerprints = new Set(existingCards.map(fingerprint))` (membership
in the `Set` is membership in the mapped list), then the import loop and the
count response. -/
def importCards (incoming : List Card) (existingIds : List String)
    (existingCards : List Card) : ImportResult :=
  let fps := existingCards.map fingerprint
  let r := importLoop fps incoming existingIds [] []
  ⟨r.1.length, r.2.length, r.1⟩

/-- Specification-side sequential id assignment: each non-duplicate card gets
an id generated against the pool of existing ids extended with the ids
assigned earlier in the same batch. -/
def assignIds : List Card → List String → List Card
  | [], _ => []
  | c :: rest, pool =>
    let i := generateCardId c.topic c.type pool
    { c with id := i } :: assignIds rest (pool ++ [i])

/-! ## Review deck controller (`FlashcardView`) -/

/-- The `Phase` union type `'setup' | 'learning' | 'done'`. -/
inductive Phase where
  | setup
  | learning
  | done
deriving DecidableEq

/-- The six `useState` pieces of `FlashcardView`. -/
structure SessionState where
  phase : Phase
  deck : List Card
  currentIndex : Nat
  isFlipped : Bool
  knownCount : Nat
  totalSeen : Nat
deriving DecidableEq

/-- The initial component state: `setup`, empty deck, index 0, not flipped,
both counters 0. -/
def initState : SessionState :=
  ⟨Phase.setup, [], 0, false, 0, 0⟩

/-- `startLearning`: early-return when the card list is empty, otherwise load
the deck, reset index/flip/counters and enter `learning`.  The component
shuffles with `[...cards].sort(() => Math.random() - 0.5)`, a nondeterministic
permutation of `cards`; the model receives the shuffled order as `cards`, so
`cards` below is literally "the deck produced at start". -/
def startLearning (cards : List Card) (s : SessionState) : SessionState :=
  if cards.length = 0 then s
  else ⟨Phase.learning, cards, 0, false, 0, 0⟩

/-- `handleFlip`: `setIsFlipped(prev => !prev)`. -/
def handleFlip (s : SessionState) : SessionState :=
  { s with isFlipped := !s.isFlipped }

/-- `handleKnown`: both counters + 1, flip reset; if `currentIndex + 1 >=
deck.length` the phase becomes `done` (index unchanged), else the index
advances by one. -/
def handleKnown (s : SessionState) : SessionState :=
  let s := { s with knownCount := s.knownCount + 1, totalSeen := s.totalSeen + 1,
                    isFlipped := false }
  if s.currentIndex + 1 ≥ s.deck.length then { s with phase := Phase.done }
  else { s with currentIndex := s.currentIndex + 1 }

/-- The deck update of `handleAgain`: `updated.splice(currentIndex, 1)` removes
the element at `currentIndex` and `updated.push(card)` re-appends it.  When
`i ≥ deck.length` the JavaScript splice removes nothing and `push` would append
the value `undefined`, which a `List Card` cannot represent; the model leaves
the deck unchanged in that case.  That case is unreachable: in every state the
controller reaches, `currentIndex < deck.length` holds while in `learning`
(proved below), and `handleAgain` only runs in `learning`. -/
def moveCurrentToEnd (deck : List Card) (i : Nat) : List Card :=
  match deck.get? i with
  | some c => deck.eraseIdx i ++ [c]
  | none => deck

/-- `handleAgain`: `totalSeen + 1`, flip reset, current card moved to the end
of the deck.  `currentIndex` is unchanged: the `if (currentIndex >=
deck.length - 1) setCurrentIndex(currentIndex)` branch writes the index back
to its own value, and the other branch leaves it alone. -/
def handleAgain (s : SessionState) : SessionState :=
  { s with totalSeen := s.totalSeen + 1, isFlipped := false,
           deck := moveCurrentToEnd s.deck s.currentIndex }

/-- The three user-level inputs to a running session. -/
inductive Op where
  | flip
  | know
  | again
deriving DecidableEq

/-- One user input, with the component's gating: the keyboard listener is
installed only while `phase === 'learning'`, `ArrowRight`/`ArrowLeft` fire
only when `isFlipped`, and the Gewusst/Nochmal buttons are rendered only when
`isFlipped` in the learning phase.  Outside those guards the input is ignored. -/
def applyOp (s : SessionState) : Op → SessionState
  | Op.flip => if s.phase = Phase.learning then handleFlip s else s
  | Op.know =>
    if s.phase = Phase.learning ∧ s.isFlipped = true then handleKnown s else s
  | Op.again =>
    if s.phase = Phase.learning ∧ s.isFlipped = true then handleAgain s else s

/-- A whole interaction: the inputs applied in order. -/
def applyOps (s : SessionState) (ops : List Op) : SessionState :=
  ops.foldl applyOp s

/-- The completion metric of the done screen:
`totalCards > 0 ? Math.round((knownCount / totalCards) * 100) : 0` with
`totalCards = deck.length`.  `Math.round` is round-half-up, which is
Mathlib's `round` on the exact rational value (the double-precision
evaluation in JS agrees on all card counts in reach). -/
def percentage (s : SessionState) : Int :=
  if 0 < s.deck.length then
    round ((s.knownCount : ℚ) / (s.deck.length : ℚ) * 100)
  else 0

/-! Sample concrete data for witnesses and counterexamples. -/

/-- A concrete card used in witnesses. -/
def cardA : Card := ⟨"", "Zugversuch", "Formel", "Hookesches Gesetz", "sigma = E epsilon"⟩

/-- A second concrete card, distinct from `cardA`. -/
def cardB : Card := ⟨"", "Zugversuch", "Definition", "Streckgrenze", "Re"⟩

/-- A third concrete card. -/
def cardC : Card := ⟨"", "Torsion", "Graph", "Torsionsdiagramm", ""⟩

/-- A fourth concrete card. -/
def cardD : Card := ⟨"", "Härteprüfung", "Erklärung", "Brinell", ""⟩

/-- The session invariant relative to the deck `d` produced at start:
known-count never exceeds total-seen, the deck stays a permutation of `d`,
and while in the learning phase the current index is a valid deck index. -/
def SessionInv (d : List Card) (s : SessionState) : Prop :=
  s.knownCount ≤ s.totalSeen ∧ s.deck.Perm d ∧
    (s.phase = Phase.learning → s.currentIndex < s.deck.length)

/-! ## Helper lemmas: decimal printing and parsing round-trip -/

theorem digitsVal_append_singleton (xs : List Char) (c : Char) :
    digitsVal (xs ++ [c]) = 10 * digitsVal xs + (c.toNat - 48) := by
  simp [digitsVal, List.foldl_append]

theorem digitsVal_replicate_zero (k : Nat) :
    digitsVal (List.replicate k '0') = 0 := by
  induction k with
  | zero => rfl
  | succ k ih => exact ih

theorem digitsVal_zeros_append (k : Nat) (ds : List Char) :
    digitsVal (List.replicate k '0' ++ ds) = digitsVal ds := by
  have h0 : List.foldl (fun a c => 10 * a + (c.toNat - 48)) 0 (List.replicate k '0') = 0 :=
    digitsVal_replicate_zero k
  simp [digitsVal, List.foldl_append, h0]

theorem digitChar_facts : ∀ d : Nat, d < 10 →
    jsIsDigit (Nat.digitChar d) = true ∧ (Nat.digitChar d).toNat - 48 = d := by
  decide

theorem toDigitsCore_append (fuel : Nat) : ∀ (n : Nat) (ds : List Char),
    Nat.toDigitsCore 10 fuel n ds = Nat.toDigitsCore 10 fuel n [] ++ ds := by
  induction fuel with
  | zero => intro n ds; simp [Nat.toDigitsCore]
  | succ fuel ih =>
    intro n ds
    simp only [Nat.toDigitsCore]
    by_cases h : n / 10 = 0
    · simp [h]
    · simp only [if_neg h]
      rw [ih (n / 10) (Nat.digitChar (n % 10) :: ds), ih (n / 10) [Nat.digitChar (n % 10)]]
      simp

theorem toDigitsCore_facts : ∀ (fuel n : Nat), n < fuel →
    Nat.toDigitsCore 10 fuel n [] ≠ [] ∧
    (∀ c ∈ Nat.toDigitsCore 10 fuel n [], jsIsDigit c = true) ∧
    digitsVal (Nat.toDigitsCore 10 fuel n []) = n := by
  intro fuel
  induction fuel with
  | zero => intro n h; omega
  | succ fuel ih =>
    intro n h
    have hd := digitChar_facts (n % 10) (Nat.mod_lt n (by omega))
    by_cases h0 : n / 10 = 0
    · have hn : n < 10 := by omega
      have hmod : n % 10 = n := Nat.mod_eq_of_lt hn
      simp only [Nat.toDigitsCore, h0, if_pos]
      refine ⟨by simp, ?_, ?_⟩
      · intro c hc
        simp only [List.mem_singleton] at hc
        subst hc
        exact hd.1
      · show digitsVal [Nat.digitChar (n % 10)] = n
        have h1 : digitsVal [Nat.digitChar (n % 10)] =
            (Nat.digitChar (n % 10)).toNat - 48 := by
          simp [digitsVal]
        rw [h1, hd.2, hmod]
    · have hlt : n / 10 < fuel := by
        have h10 : 10 ≤ n := by
          by_contra hc
          exact h0 (Nat.div_eq_of_lt (by omega))
        have := Nat.div_lt_self (by omega : 0 < n) (by omega : 1 < 10)
        omega
      obtain ⟨hne, hdig, hval⟩ := ih (n / 10) hlt
      simp only [Nat.toDigitsCore, h0, if_neg, ite_false]
      rw [toDigitsCore_append fuel (n / 10) [Nat.digitChar (n % 10)]]
      refine ⟨by simp, ?_, ?_⟩
      · intro c hc
        rcases List.mem_append.mp hc with hc | hc
        · exact hdig c hc
        · simp only [List.mem_singleton] at hc
          subst hc
          exact hd.1
      · rw [digitsVal_append_singleton, hval, hd.2]
        exact Nat.div_add_mod n 10

theorem repr_data (n : Nat) :
    (Nat.repr n).data = Nat.toDigitsCore 10 (n + 1) n [] := rfl

theorem jsIsDigit_not_space {c : Char} (h : jsIsDigit c = true) :
    jsIsSpace c = false := by
  simp only [jsIsDigit, Bool.and_eq_true, decide_eq_true_eq] at h
  simp only [jsIsSpace, Bool.or_eq_false_iff, decide_eq_false_iff_not]
  omega

theorem takeWhile_all {p : Char → Bool} : ∀ (l : List Char),
    (∀ c ∈ l, p c = true) → l.takeWhile p = l := by
  intro l
  induction l with
  | nil => intro _; rfl
  | cons c rest ih =>
    intro h
    rw [List.takeWhile_cons, if_pos (h c (by simp))]
    rw [ih fun x hx => h x (by simp [hx])]

theorem jsParseInt_all_digits (L : List Char) (hne : L ≠ [])
    (hall : ∀ c ∈ L, jsIsDigit c = true) :
    jsParseInt (String.mk L) = some ((digitsVal L : Nat) : Int) := by
  obtain ⟨c, rest, rfl⟩ := List.exists_cons_of_ne_nil hne
  have hc : jsIsDigit c = true := hall c (by simp)
  have hminus : ¬(c = '-') := by
    intro h
    subst h
    exact absurd hc (by decide)
  have hplus : ¬(c = '+') := by
    intro h
    subst h
    exact absurd hc (by decide)
  show jsParseInt (String.mk (c :: rest)) = _
  unfold jsParseInt
  have hdata : (String.mk (c :: rest)).data = c :: rest := rfl
  rw [hdata, List.dropWhile_cons_of_neg (by simp [jsIsDigit_not_space hc])]
  simp only [if_neg hminus, if_neg hplus]
  unfold parseDigits
  rw [takeWhile_all (c :: rest) hall]
  rfl

theorem jsParseInt_pad_repr (n : Nat) :
    jsParseInt (jsPadStart (Nat.repr n) 3 '0') = some ((n : Nat) : Int) := by
  obtain ⟨hne, hdig, hval⟩ := toDigitsCore_facts (n + 1) n (Nat.lt_succ_self n)
  have hpad : jsPadStart (Nat.repr n) 3 '0' =
      String.mk (List.replicate (3 - (Nat.repr n).length) '0' ++
        Nat.toDigitsCore 10 (n + 1) n []) := rfl
  rw [hpad]
  rw [jsParseInt_all_digits]
  · rw [digitsVal_zeros_append, hval]
  · simp [hne]
  · intro c hc
    rcases List.mem_append.mp hc with hc | hc
    · rw [List.eq_of_mem_replicate hc]
      decide
    · exact hdig c hc

/-! ## Helper lemmas: the sequence-number scan -/

theorem seqStep_eq (pfx : String) (m : Int) (id : String) :
    seqStep pfx m id =
      match idSeqParse pfx id with
      | some n => max m n
      | none => m := by
  unfold seqStep idSeqParse
  by_cases h : jsStartsWith id pfx
  · simp only [h, if_true]
    cases jsParseInt (jsSliceFrom id pfx.length) with
    | none => rfl
    | some n =>
      simp only []
      rcases lt_or_ge m n with hlt | hge
      · rw [if_pos hlt, max_eq_right (le_of_lt hlt)]
      · rw [if_neg (not_lt.mpr hge), max_eq_left hge]
  · simp [h]

theorem foldl_seqStep_eq (pfx : String) : ∀ (ids : List String) (m : Int),
    ids.foldl (seqStep pfx) m = (ids.filterMap (idSeqParse pfx)).foldl max m := by
  intro ids
  induction ids with
  | nil => intro m; rfl
  | cons id rest ih =>
    intro m
    rw [List.foldl_cons, ih, seqStep_eq, List.filterMap_cons]
    cases h : idSeqParse pfx id
    · rfl
    · rfl

theorem le_foldl_max : ∀ (l : List Int) (a b : Int), a ≤ b → a ≤ l.foldl max b := by
  intro l
  induction l with
  | nil => intro a b h; exact h
  | cons x rest ih =>
    intro a b h
    exact ih a (max b x) (le_trans h (le_max_left b x))

theorem mem_le_foldl_max : ∀ (l : List Int) (a x : Int), x ∈ l → x ≤ l.foldl max a := by
  intro l
  induction l with
  | nil => intro a x h; cases h
  | cons y rest ih =>
    intro a x h
    rcases List.mem_cons.mp h with rfl | h
    · exact le_foldl_max rest x (max a x) (le_max_right a x)
    · exact ih (max a y) x h

theorem maxParsedSeq_nonneg (pfx : String) (ids : List String) :
    0 ≤ maxParsedSeq pfx ids :=
  le_foldl_max _ 0 0 le_rfl

theorem generateCardId_eq (topic ty : String) (ids : List String) :
    generateCardId topic ty ids =
      mkIdPrefix topic ty ++
        jsPadStart (jsNumToString (maxParsedSeq (mkIdPrefix topic ty) ids + 1)) 3 '0' := by
  show mkIdPrefix topic ty ++
      jsPadStart (jsNumToString (ids.foldl (seqStep (mkIdPrefix topic ty)) 0 + 1)) 3 '0' = _
  rw [foldl_seqStep_eq]
  rfl

theorem jsNumToString_nonneg (i : Int) (h : 0 ≤ i) :
    jsNumToString i = Nat.repr i.toNat := by
  unfold jsNumToString
  have hi : i = Int.ofNat i.toNat := (Int.toNat_of_nonneg h).symm
  rw [hi]
  rfl

theorem idSeqParse_generated (pfx X : String)
    (hparse : jsParseInt X = some (digitsVal X.data : Int)) :
    idSeqParse pfx (pfx ++ X) = some (digitsVal X.data : Int) := by
  unfold idSeqParse
  have hstart : jsStartsWith (pfx ++ X) pfx = true := by
    unfold jsStartsWith
    rw [String.data_append, List.isPrefixOf_iff_prefix]
    exact List.prefix_append _ _
  rw [if_pos hstart]
  have hslice : jsSliceFrom (pfx ++ X) pfx.length = X := by
    unfold jsSliceFrom
    rw [String.data_append]
    show String.mk ((pfx.data ++ X.data).drop pfx.data.length) = X
    rw [List.drop_left]
  rw [hslice, hparse]

theorem generateCardId_not_mem (topic ty : String) (ids : List String) :
    generateCardId topic ty ids ∉ ids := by
  intro hmem
  have hM0 : 0 ≤ maxParsedSeq (mkIdPrefix topic ty) ids := maxParsedSeq_nonneg _ _
  set pfx := mkIdPrefix topic ty with hpfx
  set M := maxParsedSeq pfx ids with hMdef
  have hrepr : jsNumToString (M + 1) = Nat.repr (M + 1).toNat :=
    jsNumToString_nonneg _ (by omega)
  have hpr := jsParseInt_pad_repr (M + 1).toNat
  have hX : jsParseInt (jsPadStart (jsNumToString (M + 1)) 3 '0') =
      some (digitsVal (jsPadStart (jsNumToString (M + 1)) 3 '0').data : Int) := by
    rw [hrepr]
    rw [hpr]
    congr 1
    have hdval : digitsVal (jsPadStart (Nat.repr (M + 1).toNat) 3 '0').data =
        (M + 1).toNat := by
      show digitsVal (List.replicate _ '0' ++ (Nat.repr (M + 1).toNat).data) = _
      rw [digitsVal_zeros_append, repr_data]
      exact (toDigitsCore_facts _ _ (Nat.lt_succ_self _)).2.2
    rw [hdval]
  have hparse : idSeqParse pfx (generateCardId topic ty ids) =
      some (digitsVal (jsPadStart (jsNumToString (M + 1)) 3 '0').data : Int) := by
    rw [generateCardId_eq topic ty ids, ← hpfx, ← hMdef]
    exact idSeqParse_generated pfx _ hX
  have hdval2 : (digitsVal (jsPadStart (jsNumToString (M + 1)) 3 '0').data : Int) = M + 1 := by
    rw [hrepr]
    show (digitsVal (List.replicate _ '0' ++ (Nat.repr (M + 1).toNat).data) : Int) = M + 1
    rw [digitsVal_zeros_append, repr_data,
      (toDigitsCore_facts _ _ (Nat.lt_succ_self _)).2.2]
    omega
  rw [hdval2] at hparse
  have hle : M + 1 ≤ M := by
    have hmemp : (M + 1) ∈ ids.filterMap (idSeqParse pfx) :=
      List.mem_filterMap.mpr ⟨_, hmem, hparse⟩
    have h := mem_le_foldl_max (ids.filterMap (idSeqParse pfx)) 0 (M + 1) hmemp
    rw [hMdef]
    exact h
  omega

/-- C1: for every topic string, type string, and existing-id list,
`generateCardId` returns an id of the form prefix + zero-padded sequence
(sequence at least 1) starting with the derived prefix `<abbr>-<initial>-`,
the returned id is not an element of the existing-id list passed in, and with
an empty existing-id list the result is `<ABBR>-<INITIAL>-001`. -/
theorem C1_generateCardId_fresh (topic ty : String) (ids : List String) :
    (∃ n : Nat, 1 ≤ n ∧
        generateCardId topic ty ids =
          mkIdPrefix topic ty ++ jsPadStart (Nat.repr n) 3 '0') ∧
    generateCardId topic ty ids ∉ ids ∧
    generateCardId topic ty [] = mkIdPrefix topic ty ++ "001" := by
  refine ⟨?_, generateCardId_not_mem topic ty ids, ?_⟩
  · have h0 := maxParsedSeq_nonneg (mkIdPrefix topic ty) ids
    refine ⟨(maxParsedSeq (mkIdPrefix topic ty) ids + 1).toNat, by omega, ?_⟩
    rw [generateCardId_eq, jsNumToString_nonneg _ (by omega)]
  · rw [generateCardId_eq]
    have hz : maxParsedSeq (mkIdPrefix topic ty) [] = 0 := rfl
    rw [hz]
    have hpad : jsPadStart (jsNumToString (0 + 1)) 3 '0' = "001" := by decide
    rw [hpad]

/-- C4: the sequence number of a generated id is one more than the maximum of
the base-10 integers `parseInt` extracts from the suffixes of the existing ids
sharing the prefix (the maximum taken with base 0, as the scan's `let max = 0`
does), zero-padded to a minimum width of 3 without truncating values ≥ 1000;
in particular `generateCardId "Zugversuch" "Formel"
["ZUG-F-001", "ZUG-F-003", "WAR-D-002"] = "ZUG-F-004"` and
`generateCardId "Torsion" "Graph" [] = "TOR-G-001"`. -/
theorem C4_generateCardId_sequence :
    (∀ (topic ty : String) (ids : List String),
        generateCardId topic ty ids =
          mkIdPrefix topic ty ++
            jsPadStart (jsNumToString (maxParsedSeq (mkIdPrefix topic ty) ids + 1)) 3 '0') ∧
    generateCardId "Zugversuch" "Formel" ["ZUG-F-001", "ZUG-F-003", "WAR-D-002"] =
      "ZUG-F-004" ∧
    generateCardId "Torsion" "Graph" [] = "TOR-G-001" ∧
    generateCardId "Zugversuch" "Formel" ["ZUG-F-999"] = "ZUG-F-1000" :=
  ⟨generateCardId_eq, by decide, by decide, by decide⟩

/-- C6 counterexample: the claim says an id whose suffix is not a well-formed
base-10 numeral is ignored, so removing it cannot change the generated id.
The suffix `"12abc"` of `"ZUG-F-12abc"` is not a well-formed numeral, yet
`parseInt("12abc", 10)` returns 12, so the id contributes 12 to the maximum:
with it present the generator returns `"ZUG-F-013"`, with it removed
`"ZUG-F-001"`. -/
theorem C6_counterexample :
    generateCardId "Zugversuch" "Formel" ["ZUG-F-12abc"] ≠
      generateCardId "Zugversuch" "Formel" [] ∧
    generateCardId "Zugversuch" "Formel" ["ZUG-F-12abc"] = "ZUG-F-013" :=
  ⟨by decide, by decide⟩

/-- C6 (amended): an existing id is ignored by `generateCardId` exactly when
the scan's parse attempt fails — it does not start with the derived prefix, or
`parseInt` on its suffix yields NaN (no leading digit after optional
whitespace and sign).  Removing any such id from the list does not change the
generated id.  (A suffix with leading digits followed by junk is *not*
ignored: it contributes its leading digit run, as the counterexample shows.) -/
theorem C6_unparsable_ignored (topic ty : String) (ids₁ ids₂ : List String)
    (id : String) (h : idSeqParse (mkIdPrefix topic ty) id = none) :
    generateCardId topic ty (ids₁ ++ id :: ids₂) =
      generateCardId topic ty (ids₁ ++ ids₂) := by
  have hstep : ∀ m : Int, seqStep (mkIdPrefix topic ty) m id = m := by
    intro m
    rw [seqStep_eq, h]
  show mkIdPrefix topic ty ++
      jsPadStart (jsNumToString
        ((ids₁ ++ id :: ids₂).foldl (seqStep (mkIdPrefix topic ty)) 0 + 1)) 3 '0' =
    mkIdPrefix topic ty ++
      jsPadStart (jsNumToString
        ((ids₁ ++ ids₂).foldl (seqStep (mkIdPrefix topic ty)) 0 + 1)) 3 '0'
  rw [List.foldl_append, List.foldl_append, List.foldl_cons, hstep]

/-- Witness for C6 (amended): `"WAR-D-002"` does not start with the prefix
`"ZUG-F-"`, so removing it leaves the generated id unchanged. -/
theorem C6_unparsable_ignored_witness :
    generateCardId "Zugversuch" "Formel" ["WAR-D-002", "ZUG-F-003"] =
      generateCardId "Zugversuch" "Formel" ["ZUG-F-003"] :=
  C6_unparsable_ignored "Zugversuch" "Formel" [] ["ZUG-F-003"] "WAR-D-002" (by decide)

/-- C10 counterexample: the server generator and the frontend generator are
not the same function.  For the unmapped type value `"Beispiel"` the server
falls back to the first character upper-cased (`"ZUG-B-001"`) while the
frontend's map lookup yields `undefined` and the template literal renders it
as the text `"undefined"` (`"ZUG-undefined-001"`). -/
theorem C10_counterexample :
    frontendGenerateCardId "Zugversuch" "Beispiel" [] ≠
      generateCardId "Zugversuch" "Beispiel" [] ∧
    frontendGenerateCardId "Zugversuch" "Beispiel" [] = "ZUG-undefined-001" ∧
    generateCardId "Zugversuch" "Beispiel" [] = "ZUG-B-001" :=
  ⟨by decide, by decide, by decide⟩

/-- C10 (amended): the two generators agree on every topic and every
existing-id list whenever the type is one of the four mapped values
`Formel`, `Definition`, `Graph`, `Erklärung` (the entire domain of the
frontend's `CardType`); they differ on unmapped type values. -/
theorem C10_agree_on_mapped_types (topic : String) (ids : List String)
    (ty : String)
    (h : ty = "Formel" ∨ ty = "Definition" ∨ ty = "Graph" ∨ ty = "Erklärung") :
    frontendGenerateCardId topic ty ids = generateCardId topic ty ids := by
  rcases h with rfl | rfl | rfl | rfl <;> rfl

/-- Witness for C10 (amended): both generators give `"ZUG-F-002"` for the
mapped type `"Formel"`. -/
theorem C10_agree_on_mapped_types_witness :
    frontendGenerateCardId "Zugversuch" "Formel" ["ZUG-F-001"] =
      generateCardId "Zugversuch" "Formel" ["ZUG-F-001"] :=
  C10_agree_on_mapped_types "Zugversuch" ["ZUG-F-001"] "Formel" (Or.inl rfl)

/-! ## Helper lemmas: the topic abbreviation -/

theorem az_fixed : ∀ b ∈ azChars,
    umlautSub (Char.toUpper b) = Char.toUpper b ∧
    isAsciiLetter (Char.toUpper b) = true ∧
    Char.toUpper (Char.toUpper b) = Char.toUpper b := by decide

theorem xChar_fixed :
    umlautSub 'X' = 'X' ∧ isAsciiLetter 'X' = true ∧ Char.toUpper 'X' = 'X' := by decide

theorem normalize_fixed : ∀ (l : List Char),
    (∀ c ∈ l, umlautSub c = c ∧ isAsciiLetter c = true ∧ Char.toUpper c = c) →
    ((l.map umlautSub).filter isAsciiLetter).map Char.toUpper = l := by
  intro l
  induction l with
  | nil => intro _; rfl
  | cons c rest ih =>
    intro h
    obtain ⟨h1, h2, h3⟩ := h c (by simp)
    simp only [List.map_cons, h1, List.filter_cons, h2, if_true, h3]
    rw [ih fun x hx => h x (by simp [hx])]

theorem mem_abbrevChars {l : List Char} {c : Char} (h : c ∈ abbrevChars l) :
    c = 'X' ∨ ∃ b ∈ azChars, c = Char.toUpper b := by
  unfold abbrevChars jsPadEndChars at h
  rcases List.mem_append.mp h with h | h
  · have h' := List.mem_of_mem_take h
    rcases List.mem_map.mp h' with ⟨b, hb, rfl⟩
    have hbf := List.mem_filter.mp hb
    right
    refine ⟨b, ?_, rfl⟩
    have h2 := hbf.2
    simpa [isAsciiLetter, List.contains, List.elem_eq_mem] using h2
  · left
    exact List.eq_of_mem_replicate h

theorem abbrevChars_length (l : List Char) : (abbrevChars l).length = 3 := by
  unfold abbrevChars jsPadEndChars
  rw [List.length_append, List.length_replicate]
  have h := List.length_take 3 (((l.map umlautSub).filter isAsciiLetter).map Char.toUpper)
  omega

theorem abbrevChars_idem (l : List Char) :
    abbrevChars (abbrevChars l) = abbrevChars l := by
  have hfix : ∀ c ∈ abbrevChars l,
      umlautSub c = c ∧ isAsciiLetter c = true ∧ Char.toUpper c = c := by
    intro c hc
    rcases mem_abbrevChars hc with rfl | ⟨b, hb, rfl⟩
    · exact xChar_fixed
    · exact az_fixed b hb
  show jsPadEndChars
      (((((abbrevChars l).map umlautSub).filter isAsciiLetter).map Char.toUpper).take 3)
      3 'X' = _
  rw [normalize_fixed _ hfix,
    List.take_of_length_le (le_of_eq (abbrevChars_length l))]
  unfold jsPadEndChars
  rw [abbrevChars_length]
  simp

/-- C5: `getTopicAbbreviation` transliterates the mapped special letters,
strips the remaining non-ASCII-letter characters, upper-cases, takes the
first 3 characters right-padded with `'X'` to length 3 (that is its
definition here, a pure function), and is idempotent; in particular
`"Zugversuch" ↦ "ZUG"`, `"Härteprüfung" ↦ "HAR"`, `"A" ↦ "AXX"`,
`"123" ↦ "XXX"`. -/
theorem C5_getTopicAbbreviation_spec :
    (∀ topic : String,
        getTopicAbbreviation (getTopicAbbreviation topic) = getTopicAbbreviation topic) ∧
    getTopicAbbreviation "Zugversuch" = "ZUG" ∧
    getTopicAbbreviation "Härteprüfung" = "HAR" ∧
    getTopicAbbreviation "A" = "AXX" ∧
    getTopicAbbreviation "123" = "XXX" := by
  refine ⟨?_, by decide, by decide, by decide, by decide⟩
  intro topic
  show String.mk (abbrevChars (abbrevChars topic.data)) = String.mk (abbrevChars topic.data)
  rw [abbrevChars_idem]

/-! ## Helper lemmas: the review deck controller -/

theorem eraseIdx_append_get_perm (l : List Card) (i : Nat) (h : i < l.length) :
    (l.eraseIdx i ++ [l.get ⟨i, h⟩]).Perm l := by
  have hd : l.drop i = l.get ⟨i, h⟩ :: l.drop (i + 1) := by
    rw [List.drop_eq_getElem_cons h, List.get_eq_getElem]
  have base : l.take i ++ l.drop i = l := List.take_append_drop i l
  rw [List.eraseIdx_eq_take_drop_succ, List.append_assoc]
  have hperm := List.Perm.append_left (l.take i)
    (List.perm_append_singleton (l.get ⟨i, h⟩) (l.drop (i + 1)))
  rw [← hd] at hperm
  rw [base] at hperm
  exact hperm

theorem moveCurrentToEnd_eq (l : List Card) (i : Nat) (h : i < l.length) :
    moveCurrentToEnd l i = l.eraseIdx i ++ [l.get ⟨i, h⟩] := by
  unfold moveCurrentToEnd
  rw [List.get?_eq_get h]

theorem applyOp_inv {d : List Card} {s : SessionState} (hinv : SessionInv d s) (op : Op) :
    SessionInv d (applyOp s op) := by
  obtain ⟨hkt, hperm, hidx⟩ := hinv
  cases op with
  | flip =>
    by_cases h : s.phase = Phase.learning
    · simp only [applyOp, if_pos h]
      exact ⟨hkt, hperm, fun _ => hidx h⟩
    · simp only [applyOp, if_neg h]
      exact ⟨hkt, hperm, hidx⟩
  | know =>
    by_cases hg : s.phase = Phase.learning ∧ s.isFlipped = true
    · simp only [applyOp, if_pos hg, handleKnown]
      split
      next hend =>
        refine ⟨?_, ?_, ?_⟩
        · show s.knownCount + 1 ≤ s.totalSeen + 1
          omega
        · exact hperm
        · intro hp
          exact absurd hp (by simp)
      next hend =>
        refine ⟨?_, ?_, ?_⟩
        · show s.knownCount + 1 ≤ s.totalSeen + 1
          omega
        · exact hperm
        · intro _
          show s.currentIndex + 1 < s.deck.length
          omega
    · simp only [applyOp, if_neg hg]
      exact ⟨hkt, hperm, hidx⟩
  | again =>
    by_cases hg : s.phase = Phase.learning ∧ s.isFlipped = true
    · have hlt : s.currentIndex < s.deck.length := hidx hg.1
      simp only [applyOp, if_pos hg, handleAgain]
      rw [moveCurrentToEnd_eq s.deck s.currentIndex hlt]
      refine ⟨?_, ?_, fun _ => ?_⟩
      · show s.knownCount ≤ s.totalSeen + 1
        omega
      · exact (eraseIdx_append_get_perm s.deck s.currentIndex hlt).trans hperm
      · show s.currentIndex <
          (s.deck.eraseIdx s.currentIndex ++ [s.deck.get ⟨s.currentIndex, hlt⟩]).length
        rw [List.length_append, List.length_eraseIdx_of_lt hlt]
        simp only [List.length_singleton]
        omega
    · simp only [applyOp, if_neg hg]
      exact ⟨hkt, hperm, hidx⟩

theorem applyOps_inv {d : List Card} : ∀ (ops : List Op) (s : SessionState),
    SessionInv d s → SessionInv d (applyOps s ops) := by
  intro ops
  induction ops with
  | nil => intro s h; exact h
  | cons op rest ih =>
    intro s h
    exact ih (applyOp s op) (applyOp_inv h op)

/-- C7: in every session state reachable from start via flip/know/again,
known-count never exceeds total-seen and the deck is a permutation (the same
multiset) of the deck produced at start — so the deck length is constant
across know() and again() and no card is duplicated or dropped. -/
theorem C7_session_invariant (cards : List Card) (ops : List Op) (h : cards ≠ []) :
    (applyOps (startLearning cards initState) ops).knownCount ≤
      (applyOps (startLearning cards initState) ops).totalSeen ∧
    ((applyOps (startLearning cards initState) ops).deck).Perm cards := by
  have hstart : SessionInv cards (startLearning cards initState) := by
    unfold startLearning
    rw [if_neg (fun hc => h (List.length_eq_zero.mp hc))]
    exact ⟨le_refl 0, List.Perm.refl _, fun _ => List.length_pos.mpr h⟩
  have hfin := applyOps_inv ops _ hstart
  exact ⟨hfin.1, hfin.2.1⟩

/-- Witness for C7 at a concrete two-card session with a mixed input
sequence. -/
theorem C7_session_invariant_witness :
    (applyOps (startLearning [cardA, cardB] initState)
        [Op.flip, Op.again, Op.flip, Op.know]).knownCount ≤
      (applyOps (startLearning [cardA, cardB] initState)
        [Op.flip, Op.again, Op.flip, Op.know]).totalSeen ∧
    ((applyOps (startLearning [cardA, cardB] initState)
        [Op.flip, Op.again, Op.flip, Op.know]).deck).Perm [cardA, cardB] :=
  C7_session_invariant [cardA, cardB] [Op.flip, Op.again, Op.flip, Op.know] (by simp)

/-- C8: know() and again() while not flipped, or while the phase is not
Learning, leave the entire session state unchanged — a no-op, not an error. -/
theorem C8_ungated_noop (s : SessionState)
    (h : s.isFlipped = false ∨ s.phase ≠ Phase.learning) :
    applyOp s Op.know = s ∧ applyOp s Op.again = s := by
  have hg : ¬(s.phase = Phase.learning ∧ s.isFlipped = true) := by
    rcases h with h | h
    · rintro ⟨_, h2⟩
      rw [h] at h2
      cases h2
    · rintro ⟨h1, _⟩
      exact h h1
  exact ⟨by simp only [applyOp, if_neg hg], by simp only [applyOp, if_neg hg]⟩

/-- Witness for C8: an un-flipped learning state is left untouched by know()
and again(). -/
theorem C8_ungated_noop_witness :
    applyOp ⟨Phase.learning, [cardA], 0, false, 0, 0⟩ Op.know =
      ⟨Phase.learning, [cardA], 0, false, 0, 0⟩ ∧
    applyOp ⟨Phase.learning, [cardA], 0, false, 0, 0⟩ Op.again =
      ⟨Phase.learning, [cardA], 0, false, 0, 0⟩ :=
  C8_ungated_noop ⟨Phase.learning, [cardA], 0, false, 0, 0⟩ (Or.inl rfl)

/-- C2 counterexample: start with deck `[cardA, cardB]`, flip, know, flip —
the current card is now `cardB`, the last element.  The claim says again()
must next show the previously second-to-last card (`cardA`); the code
re-appends `cardB` at the position the unchanged index points to, so the next
card shown is `cardB` itself. -/
theorem C2_counterexample :
    (applyOps (startLearning [cardA, cardB] initState)
        [Op.flip, Op.know, Op.flip, Op.again]).deck.get?
      (applyOps (startLearning [cardA, cardB] initState)
        [Op.flip, Op.know, Op.flip, Op.again]).currentIndex = some cardB ∧
    cardB ≠ cardA :=
  ⟨by decide, by decide⟩

/-- C2 (amended): in the Learning phase with the card flipped and the current
index valid, again() increments totalSeen by 1, leaves knownCount unchanged,
resets the flip state, removes the current card from its position and appends
it to the end of the deck, and does not advance the current index; the deck
length is unchanged.  When the current card is the last element the index
stays valid, and the next card shown is the same card that was just answered
again (re-appended at the position the unchanged index points to) — not the
previously second-to-last card. -/
theorem C2_again_behavior (s : SessionState)
    (h1 : s.phase = Phase.learning) (h2 : s.isFlipped = true)
    (h3 : s.currentIndex < s.deck.length) :
    (applyOp s Op.again).phase = Phase.learning ∧
    (applyOp s Op.again).totalSeen = s.totalSeen + 1 ∧
    (applyOp s Op.again).knownCount = s.knownCount ∧
    (applyOp s Op.again).isFlipped = false ∧
    (applyOp s Op.again).currentIndex = s.currentIndex ∧
    (applyOp s Op.again).deck =
      s.deck.eraseIdx s.currentIndex ++ [s.deck.get ⟨s.currentIndex, h3⟩] ∧
    (applyOp s Op.again).deck.length = s.deck.length ∧
    (s.currentIndex = s.deck.length - 1 →
      (applyOp s Op.again).deck.get? (applyOp s Op.again).currentIndex =
        some (s.deck.get ⟨s.currentIndex, h3⟩)) := by
  have hg : s.phase = Phase.learning ∧ s.isFlipped = true := ⟨h1, h2⟩
  have hop : applyOp s Op.again = handleAgain s := by
    simp only [applyOp, if_pos hg]
  have hdeck : (handleAgain s).deck =
      s.deck.eraseIdx s.currentIndex ++ [s.deck.get ⟨s.currentIndex, h3⟩] := by
    simp only [handleAgain]
    exact moveCurrentToEnd_eq s.deck s.currentIndex h3
  have hlen : (handleAgain s).deck.length = s.deck.length := by
    rw [hdeck, List.length_append, List.length_eraseIdx_of_lt h3]
    simp only [List.length_singleton]
    omega
  rw [hop]
  refine ⟨h1, rfl, rfl, rfl, rfl, hdeck, hlen, ?_⟩
  intro hlast
  have hidx : (handleAgain s).currentIndex = s.currentIndex := rfl
  rw [hidx, hdeck]
  have herase : (s.deck.eraseIdx s.currentIndex).length = s.currentIndex := by
    rw [List.length_eraseIdx_of_lt h3]
    omega
  rw [List.get?_eq_getElem?, List.getElem?_append_right (le_of_eq herase)]
  rw [herase]
  simp

/-- Witness for C2 (amended) at the concrete state reached by start, flip,
know, flip on a two-card deck: again() bumps totalSeen to 2, keeps knownCount
at 1, and keeps the index at 1. -/
theorem C2_again_behavior_witness :
    (applyOp ⟨Phase.learning, [cardA, cardB], 1, true, 1, 1⟩ Op.again).totalSeen = 2 ∧
    (applyOp ⟨Phase.learning, [cardA, cardB], 1, true, 1, 1⟩ Op.again).knownCount = 1 ∧
    (applyOp ⟨Phase.learning, [cardA, cardB], 1, true, 1, 1⟩ Op.again).currentIndex = 1 := by
  have h := C2_again_behavior ⟨Phase.learning, [cardA, cardB], 1, true, 1, 1⟩
    rfl rfl (by decide)
  exact ⟨h.2.1, h.2.2.1, h.2.2.2.2.1⟩

/-- C9: the code evaluated at the claim's scenario.  Deck of 4 cards, 3
answered known on first showing, the 4th answered again once and then known:
the code ends in the done phase with totalSeen = 5 as the claim says, but
with knownCount = 4 and percentage = 100 — not knownCount = 3 and
percentage = 75 — because handleKnown increments knownCount for the
re-queued card's second showing as well, contradicting the done screen's own
"beim ersten Mal gewusst" (known on first try) label.  The zero-card clause
of the claim does hold: the percentage of a state with an empty deck is 0. -/
theorem C9_completion_scenario :
    (applyOps (startLearning [cardA, cardB, cardC, cardD] initState)
        [Op.flip, Op.know, Op.flip, Op.know, Op.flip, Op.know,
         Op.flip, Op.again, Op.flip, Op.know]).phase = Phase.done ∧
    (applyOps (startLearning [cardA, cardB, cardC, cardD] initState)
        [Op.flip, Op.know, Op.flip, Op.know, Op.flip, Op.know,
         Op.flip, Op.again, Op.flip, Op.know]).knownCount = 4 ∧
    (applyOps (startLearning [cardA, cardB, cardC, cardD] initState)
        [Op.flip, Op.know, Op.flip, Op.know, Op.flip, Op.know,
         Op.flip, Op.again, Op.flip, Op.know]).totalSeen = 5 ∧
    percentage (applyOps (startLearning [cardA, cardB, cardC, cardD] initState)
        [Op.flip, Op.know, Op.flip, Op.know, Op.flip, Op.know,
         Op.flip, Op.again, Op.flip, Op.know]) = 100 ∧
    percentage initState = 0 := by
  have h : applyOps (startLearning [cardA, cardB, cardC, cardD] initState)
      [Op.flip, Op.know, Op.flip, Op.know, Op.flip, Op.know,
       Op.flip, Op.again, Op.flip, Op.know] =
      ⟨Phase.done, [cardA, cardB, cardC, cardD], 3, false, 4, 5⟩ := by decide
  refine ⟨by rw [h], by rw [h], by rw [h], ?_, by decide⟩
  rw [h]
  norm_num [percentage, round_eq]

/-! ## Helper lemmas: bulk import -/

theorem importLoop_cons_dup (fps : List String) (c : Card) (rest : List Card)
    (pool : List String) (imp dup : List Card)
    (h : fps.contains (fingerprint c) = true) :
    importLoop fps (c :: rest) pool imp dup =
      importLoop fps rest pool imp (dup ++ [c]) := by
  simp only [importLoop, h]
  rfl

theorem importLoop_cons_new (fps : List String) (c : Card) (rest : List Card)
    (pool : List String) (imp dup : List Card)
    (h : fps.contains (fingerprint c) = false) :
    importLoop fps (c :: rest) pool imp dup =
      importLoop fps rest (pool ++ [generateCardId c.topic c.type pool])
        (imp ++ [{ c with id := generateCardId c.topic c.type pool }]) dup := by
  simp only [importLoop, h]
  rfl

theorem importLoop_spec (fps : List String) : ∀ (cs : List Card) (pool : List String)
    (imp dup : List Card),
    importLoop fps cs pool imp dup =
      (imp ++ assignIds (cs.filter fun c => !(fps.contains (fingerprint c))) pool,
       dup ++ cs.filter fun c => fps.contains (fingerprint c)) := by
  intro cs
  induction cs with
  | nil =>
    intro pool imp dup
    simp [importLoop, assignIds]
  | cons c rest ih =>
    intro pool imp dup
    cases hb : fps.contains (fingerprint c) with
    | true =>
      have hm : fingerprint c ∈ fps := by simpa using hb
      rw [importLoop_cons_dup fps c rest pool imp dup hb, ih]
      simp [List.filter_cons, hb, hm, List.append_assoc]
    | false =>
      have hm : fingerprint c ∉ fps := by simpa using hb
      rw [importLoop_cons_new fps c rest pool imp dup hb, ih]
      simp [List.filter_cons, hb, hm, assignIds, List.append_assoc]

theorem assignIds_length : ∀ (cs : List Card) (pool : List String),
    (assignIds cs pool).length = cs.length := by
  intro cs
  induction cs with
  | nil => intro pool; rfl
  | cons c rest ih =>
    intro pool
    simp [assignIds, ih]

/-- C3: bulk import marks an incoming card as a duplicate exactly when its
fingerprint `title|||topic|||type` occurs among the existing cards'
fingerprints (such a card is not imported and gets no id); every
non-duplicate card is assigned an id generated against the pool of existing
ids extended with the ids assigned earlier in the same batch (`assignIds`);
the result reports the imported and duplicate counts; an empty batch yields
zero imported and zero duplicates. -/
theorem C3_import_spec :
    (∀ (incoming : List Card) (existingIds : List String) (existingCards : List Card),
        importCards incoming existingIds existingCards =
          ⟨(incoming.filter fun c =>
              !((existingCards.map fingerprint).contains (fingerprint c))).length,
            (incoming.filter fun c =>
              (existingCards.map fingerprint).contains (fingerprint c)).length,
            assignIds
              (incoming.filter fun c =>
                !((existingCards.map fingerprint).contains (fingerprint c)))
              existingIds⟩) ∧
    (∀ (existingIds : List String) (existingCards : List Card),
        importCards [] existingIds existingCards = ⟨0, 0, []⟩) := by
  constructor
  · intro incoming ids cards
    have h := importLoop_spec (cards.map fingerprint) incoming ids [] []
    show (⟨(importLoop (cards.map fingerprint) incoming ids [] []).1.length,
           (importLoop (cards.map fingerprint) incoming ids [] []).2.length,
           (importLoop (cards.map fingerprint) incoming ids [] []).1⟩ : ImportResult) = _
    rw [h]
    simp [assignIds_length]
  · intro ids cards
    rfl
